import Mathlib

/-!
Verification of the ledger-formatter beautifier (`src/lib/src/beautifier.rs`).

The Rust source is shallowly embedded: the tree-sitter `Node` view becomes an
inductive tree carrying the data the formatter reads (kind tag, namedness,
error flag, start position, source text, ordered children); the mutable
`State` becomes a record threaded through the formatters; `anyhow::Result`
becomes `Except`; a Rust runtime panic (unchecked `usize` underflow in debug
builds) is a distinct error constructor.  Machine-integer behaviour over
`usize` is modelled with `Nat` plus an explicit checked subtraction, since
Rust debug builds abort on `usize` underflow (release builds wrap, after
which the corresponding `" ".repeat` call aborts on capacity overflow).
-/

namespace Ledger

/-- Byte length of a string when encoded in UTF-8; models Rust `str::len`. -/
def utf8Len (s : String) : Nat := (s.data.map Char.utf8Size).sum

/-- ASCII whitespace test; the whitespace actually occurring in ledger files. -/
def isWs (c : Char) : Bool := c == ' ' || c == '\t' || c == '\n' || c == '\r'

/-- Models Rust `str::trim`: drop leading and trailing whitespace. -/
def rustTrim (s : String) : String :=
  ⟨((s.data.dropWhile isWs).reverse.dropWhile isWs).reverse⟩

/-- `" ".repeat n` from the Rust source. -/
def spaces (n : Nat) : String := ⟨List.replicate n ' '⟩

/-- Rust `usize` subtraction: defined when no underflow occurs; `none` models
the debug-build panic (release builds wrap to a huge value instead, on which
the subsequent `" ".repeat` aborts). -/
def checkedSub (a b : Nat) : Option Nat := if b ≤ a then some (a - b) else none

/-- A view of one tree-sitter syntax node, carrying exactly the data the
beautifier reads: `kind`, whether the node is named, whether it is an ERROR
node, the start position (`row`, `column` of `range().start_point`), the
source text of its byte range (`utf8_text`), and the ordered child list. -/
inductive Node where
  | mk (kind : String) (named : Bool) (isErr : Bool) (row column : Nat)
       (text : String) (children : List Node)

def Node.kind : Node → String
  | .mk k _ _ _ _ _ _ => k

def Node.named : Node → Bool
  | .mk _ n _ _ _ _ _ => n

def Node.isErr : Node → Bool
  | .mk _ _ e _ _ _ _ => e

def Node.row : Node → Nat
  | .mk _ _ _ r _ _ _ => r

def Node.column : Node → Nat
  | .mk _ _ _ _ c _ _ => c

def Node.text : Node → String
  | .mk _ _ _ _ _ t _ => t

def Node.children : Node → List Node
  | .mk _ _ _ _ _ _ cs => cs

/-- `node.named_children(...)`: the named subset of the children, in order. -/
def Node.namedChildren (n : Node) : List Node := n.children.filter (·.named)

/-- `iterator.find(|c| c.kind() == k)` over a child list. -/
def findKind (l : List Node) (k : String) : Option Node := l.find? (·.kind == k)

mutual

/-- `find_first_error_node`: depth-first, children-in-order search for the
first ERROR node (beautifier.rs lines 109-119). -/
def findFirstErrorNode : Node → Option Node
  | .mk k nm er r c t cs =>
    if er then some (.mk k nm er r c t cs) else findFirstErrorNodeL cs

/-- The recursion of `find_first_error_node` over a child list. -/
def findFirstErrorNodeL : List Node → Option Node
  | [] => none
  | c :: cs =>
    match findFirstErrorNode c with
    | some e => some e
    | none => findFirstErrorNodeL cs

end

/-- The mutable formatting state (beautifier.rs lines 12-21).  Both output
sinks are carried: `formatted` is the in-place string buffer, `stdoutBuf`
models the bytes written to the standard output stream by `print!`/
`println!`; `inplace` selects which sink each print call appends to. -/
structure State where
  formatted : String
  stdoutBuf : String
  inplace : Bool
  col : Nat
  row : Nat
  level : Nat
  extra_indentation : Nat
  num_spaces : Nat
deriving DecidableEq

/-- `State::print` (lines 33-40): append to the selected sink and advance
`col` by the UTF-8 byte length of the string, exactly as `self.col +=
string.len()` does. -/
def State.print (st : State) (s : String) : State :=
  if st.inplace then
    { st with formatted := st.formatted ++ s, col := st.col + utf8Len s }
  else
    { st with stdoutBuf := st.stdoutBuf ++ s, col := st.col + utf8Len s }

/-- `State::println` (lines 47-56): append the string plus a line break to
the selected sink, reset `col`, bump `row`. -/
def State.println (st : State) (s : String) : State :=
  if st.inplace then
    { st with formatted := st.formatted ++ s ++ "\n", col := 0, row := st.row + 1 }
  else
    { st with stdoutBuf := st.stdoutBuf ++ s ++ "\n", col := 0, row := st.row + 1 }

/-- `State::indent` (lines 24-31). -/
def State.indent (st : State) : State :=
  let st1 := (List.range st.level).foldl (fun a _ => a.print (spaces a.num_spaces)) st
  (List.range st.extra_indentation).foldl (fun a _ => a.print " ") st1

/-- `State::print_node` (lines 42-45): print the node's source text. -/
def State.printNode (st : State) (n : Node) : State := st.print n.text

/-- The bytes visible in the sink selected by the configuration. -/
def State.sink (st : State) : String :=
  if st.inplace then st.formatted else st.stdoutBuf

/-- How a formatting step can fail: `fail` is an `anyhow` error returned as
`Result::Err`; `panicked` is a Rust runtime panic (the unchecked `usize`
subtractions in `format_posting` on debug builds). -/
inductive RErr where
  | fail (msg : String)
  | panicked (msg : String)
deriving DecidableEq

/-- Result of one formatter call: the state after all side effects performed
so far, plus success or the propagated error. -/
abbrev FmtM := State × Except RErr Unit

def ok (st : State) : FmtM := (st, .ok ())

def err (st : State) (e : RErr) : FmtM := (st, .error e)

/-- Sequencing with the `?` operator: on error, later steps do not run but
the side effects already performed remain. -/
def andThen (r : FmtM) (f : State → FmtM) : FmtM :=
  match r with
  | (st, .ok _) => f st
  | (st, .error e) => (st, .error e)

/-- `TraversingError::err_at_loc` (lines 59-73): the message carries the
row and column of `node.range().start_point`. -/
def errAtLocMsg (n : Node) : String :=
  "Error accessing token around line " ++ toString n.row ++ " col " ++
    toString n.column

/-- The debug-build panic message for `usize` underflow. -/
def underflowMsg : String := "attempt to subtract with overflow"

/-- `format_amount` (lines 526-548): optional trimmed `negative_quantity`,
then optional trimmed `quantity`, then a space and the trimmed `commodity`
when one exists.  Never fails. -/
def formatAmount (st : State) (n : Node) : FmtM :=
  let st :=
    match findKind n.namedChildren "negative_quantity" with
    | some q => st.print (rustTrim q.text)
    | none => st
  let st :=
    match findKind n.namedChildren "quantity" with
    | some q => st.print (rustTrim q.text)
    | none => st
  let st :=
    match findKind n.namedChildren "commodity" with
    | some c => (st.print " ").print (rustTrim c.text)
    | none => st
  ok st

/-- `format_price` (lines 550-559): verbatim first-child keyword, a space,
then the nested amount; missing first child or missing `amount` child is an
`err_at_loc` error on the price node. -/
def formatPrice (st : State) (n : Node) : FmtM :=
  match n.children.head? with
  | none => err st (.fail (errAtLocMsg n))
  | some c =>
    let st := (st.printNode c).print " "
    match findKind n.namedChildren "amount" with
    | none => err st (.fail (errAtLocMsg n))
    | some a => formatAmount st a

/-- `format_balance_assertion` (lines 561-569). -/
def formatBalanceAssertion (st : State) (n : Node) : FmtM :=
  let st := st.print "= "
  match findKind n.namedChildren "amount" with
  | none => err st (.fail (errAtLocMsg n))
  | some a => formatAmount st a

/-- The trailing `note` handling and final line break of `format_posting`
(lines 515-523), with the separator the previous fields left behind. -/
def postingNoteStep (st : State) (spacing : String) (n : Node) : FmtM :=
  let st :=
    match findKind n.namedChildren "note" with
    | some note => (st.print spacing).print (rustTrim note.text)
    | none => st
  ok (st.println "")

/-- The `balance_assertion` handling of `format_posting` (lines 507-514);
once it prints, the separator for later fields becomes a single space. -/
def postingBalStep (st : State) (spacing : String) (n : Node) : FmtM :=
  match findKind n.namedChildren "balance_assertion" with
  | some b =>
    andThen (formatBalanceAssertion (st.print spacing) b) fun st =>
      postingNoteStep st " " n
  | none => postingNoteStep st spacing n

/-- The `price` / `balance_assertion` / `note` tail of `format_posting`
(lines 499-523), with the running separator `spacing`. -/
def formatPostingTail (st : State) (spacing : String) (n : Node) : FmtM :=
  match findKind n.namedChildren "price" with
  | some p =>
    andThen (formatPrice (st.print spacing) p) fun st =>
      postingBalStep st " " n
  | none => postingBalStep st spacing n

/-- The leading `status` / `account` printing of `format_posting`
(lines 467-480). -/
def postingStatusAccount (st : State) (n : Node) : State :=
  let st :=
    match findKind n.namedChildren "status" with
    | some s => st.printNode s
    | none => st
  match findKind n.namedChildren "account" with
  | some a => st.printNode a
  | none => st

/-- `format_posting` (lines 465-524).  The fallback spacing
`" ".repeat(max(0, 60 - state.col))` is computed before the amount lookup;
because `state.col` is a `usize`, the subtraction is checked and a column
past 60 aborts the run (debug-build panic).  The quantity spacing
`" ".repeat(max(0, 60 - state.col - number_size - 1))` is likewise a chain
of checked `usize` subtractions. -/
def formatPosting (st : State) (n : Node) : FmtM :=
  let st := postingStatusAccount st n
  match checkedSub 60 st.col with
  | none => err st (.panicked underflowMsg)
  | some pad0 =>
    match findKind n.namedChildren "amount" with
    | some amount =>
      match amount.namedChildren.find?
          (fun c => c.kind == "quantity" || c.kind == "negative_quantity") with
      | none => err st (.fail (errAtLocMsg amount))
      | some q =>
        match (checkedSub pad0 (utf8Len (rustTrim q.text))).bind
            (fun x => checkedSub x 1) with
        | none => err st (.panicked underflowMsg)
        | some qpad =>
          andThen (formatAmount (st.print (spaces (max 0 qpad))) amount) fun st =>
            formatPostingTail st " " n
    | none => formatPostingTail st (spaces (max 0 pad0)) n

/-- `format_argument_subdirective` (lines 303-313): print the keyword and a
space, then the verbatim `value` child; a missing `value` child (searched
among all children) is an `err_at_loc` error on the subdirective node. -/
def formatArgumentSubdirective (st : State) (n : Node) (argument : String) : FmtM :=
  let st := (st.print argument).print " "
  match findKind n.children "value" with
  | none => err st (.fail (errAtLocMsg n))
  | some v => ok (st.printNode v)

/-- `format_format_subdirective` (lines 315-324). -/
def formatFormatSubdirective (st : State) (n : Node) : FmtM :=
  let st := st.print "format "
  match findKind n.children "amount" with
  | none => err st (.fail (errAtLocMsg n))
  | some a => formatAmount st a

/-- The body of the subdirective loop of `format_account_directive`
(lines 177-206) for one `account_subdirective` wrapper child. -/
def accountSubStep (st : State) (child : Node) : FmtM :=
  match child.children.head? with
  | none => err st (.fail (errAtLocMsg child))
  | some c =>
    match c.kind with
    | "alias_subdirective" => formatArgumentSubdirective st.indent c "alias"
    | "note_subdirective" => formatArgumentSubdirective st.indent c "note"
    | "assert_subdirective" => formatArgumentSubdirective st.indent c "assert"
    | "check_subdirective" => formatArgumentSubdirective st.indent c "check"
    | "payee_subdirective" => formatArgumentSubdirective st.indent c "payee"
    | "default_subdirective" => ok (st.indent.println "default")
    | _ => ok st

/-- `format_account_directive` (lines 164-209). -/
def formatAccountDirective (st : State) (n : Node) : FmtM :=
  let st := st.print "account "
  match n.namedChildren.head? with
  | none => err st (.fail (errAtLocMsg n))
  | some acct =>
    let st := st.println acct.text
    let subs := n.children.filter (·.kind == "account_subdirective")
    let st := { st with level := st.level + 1 }
    andThen (subs.foldl (fun r child => andThen r (accountSubStep · child)) (ok st))
      fun st => ok { st with level := st.level - 1 }

/-- The body of the subdirective loop of `format_commodity_directive`
(lines 224-248) for one `commodity_subdirective` wrapper child. -/
def commoditySubStep (st : State) (child : Node) : FmtM :=
  match child.children.head? with
  | none => err st (.fail (errAtLocMsg child))
  | some c =>
    match c.kind with
    | "alias_subdirective" => formatArgumentSubdirective st.indent c "alias"
    | "note_subdirective" => formatArgumentSubdirective st.indent c "note"
    | "format_subdirective" => formatFormatSubdirective st.indent c
    | "default_subdirective" => ok (st.indent.println "default")
    | "nomarket_subdirective" => ok (st.indent.println "nomarket")
    | _ => ok st

/-- `format_commodity_directive` (lines 211-252). -/
def formatCommodityDirective (st : State) (n : Node) : FmtM :=
  let st := st.print "commodity "
  match n.namedChildren.head? with
  | none => err st (.fail (errAtLocMsg n))
  | some c =>
    let st := st.println c.text
    let subs := n.children.filter (·.kind == "commodity_subdirective")
    let st := { st with level := st.level + 1 }
    andThen (subs.foldl (fun r child => andThen r (commoditySubStep · child)) (ok st))
      fun st => ok { st with level := st.level - 1 }

/-- The body of the subdirective loop of `format_tag_directive`
(lines 265-277). -/
def tagSubStep (st : State) (child : Node) : FmtM :=
  match child.kind with
  | "assert_subdirective" => formatArgumentSubdirective st.indent child "assert"
  | "check_subdirective" => formatArgumentSubdirective st.indent child "check"
  | _ => ok st

/-- `format_tag_directive` (lines 254-280): the `tag` child is required; the
subdirective loop then runs over all named children (the tree-sitter child
iterator restarts from the beginning at each call). -/
def formatTagDirective (st : State) (n : Node) : FmtM :=
  let st := st.print "tag "
  match findKind n.namedChildren "tag" with
  | none => err st (.fail (errAtLocMsg n))
  | some tg =>
    let st := st.println (rustTrim tg.text)
    let st := { st with level := st.level + 1 }
    andThen (n.namedChildren.foldl (fun r child => andThen r (tagSubStep · child))
        (ok st))
      fun st => ok { st with level := st.level - 1 }

/-- The loop body of `format_word_directive` (lines 285-298), carrying the
`first` flag in the second component. -/
def wordStep (acc : State × Bool) (child : Node) : State × Bool :=
  if child.kind == "whitespace" then acc
  else
    let value := rustTrim child.text
    if value == "" then acc
    else
      let st1 := if !acc.2 then acc.1.print " " else acc.1
      (st1.print value, false)

/-- `format_word_directive` (lines 282-301): join the non-whitespace,
non-empty-after-trim child tokens with single spaces on one line. -/
def formatWordDirective (st : State) (n : Node) : FmtM :=
  let acc := n.children.foldl wordStep (st, true)
  ok (acc.1.println "")

/-- `format_directive` (lines 151-162): dispatch on the kind of the first
child; `option` nodes are copied verbatim; unknown kinds are a no-op. -/
def formatDirective (st : State) (n : Node) : FmtM :=
  match n.children.head? with
  | none => err st (.fail (errAtLocMsg n))
  | some c =>
    match c.kind with
    | "option" => ok (st.printNode c)
    | "account_directive" => formatAccountDirective st c
    | "commodity_directive" => formatCommodityDirective st c
    | "tag_directive" => formatTagDirective st c
    | "word_directive" => formatWordDirective st c
    | "char_directive" => formatWordDirective st c
    | _ => ok st

/-- The first-line field printing of `format_plain_xact` (lines 339-359). -/
def plainXactHeadStep (st : State) (c : Node) : State :=
  match c.kind with
  | "date" => st.printNode c
  | "effective_date" => (st.print "=").printNode c
  | "status" => (st.print " ").printNode c
  | "code" => (st.print " ").printNode c
  | "payee" => (st.print " ").printNode c
  | _ => st

/-- The indented `note` / `posting` body step shared by the three
transaction formatters (lines 362-377, 403-419, 443-460). -/
def xactBodyStep (st : State) (c : Node) : FmtM :=
  match c.kind with
  | "note" => ok (st.indent.println c.text)
  | "posting" => formatPosting st.indent c
  | _ => ok st

/-- `format_plain_xact` (lines 337-381). -/
def formatPlainXact (st : State) (n : Node) : FmtM :=
  let firstLine := ["date", "effective_date", "status", "code", "payee"]
  let st := (n.namedChildren.filter (fun c => firstLine.contains c.kind)).foldl
    plainXactHeadStep st
  let st := st.println ""
  let st := { st with level := st.level + 1 }
  andThen ((n.namedChildren.filter (fun c => !firstLine.contains c.kind)).foldl
      (fun r c => andThen r (xactBodyStep · c)) (ok st))
    fun st => ok { st with level := st.level - 1 }

/-- `format_periodic_xact` (lines 383-422): `"~ "` is printed before the
required `interval` child is looked up, so a missing interval leaves the
already printed header fragment in the sink. -/
def formatPeriodicXact (st : State) (n : Node) : FmtM :=
  let st := st.print "~ "
  match findKind n.namedChildren "interval" with
  | none => err st (.fail (errAtLocMsg n))
  | some iv =>
    let st := st.print (rustTrim iv.text)
    let st :=
      match findKind n.namedChildren "note" with
      | some note => (st.print " ").printNode note
      | none => st
    let st := st.println ""
    let st := { st with level := st.level + 1 }
    let firstLine := ["note", "interval"]
    andThen ((n.namedChildren.filter (fun c => !firstLine.contains c.kind)).foldl
        (fun r c => andThen r (xactBodyStep · c)) (ok st))
      fun st => ok { st with level := st.level - 1 }

/-- `format_automated_xact` (lines 424-463): same shape as the periodic
transaction with `"= "` and the required `query` child. -/
def formatAutomatedXact (st : State) (n : Node) : FmtM :=
  let st := st.print "= "
  match findKind n.namedChildren "query" with
  | none => err st (.fail (errAtLocMsg n))
  | some q =>
    let st := st.print (rustTrim q.text)
    let st :=
      match findKind n.namedChildren "note" with
      | some note => (st.print " ").printNode note
      | none => st
    let st := st.println ""
    let st := { st with level := st.level + 1 }
    let firstLine := ["note", "query"]
    andThen ((n.namedChildren.filter (fun c => !firstLine.contains c.kind)).foldl
        (fun r c => andThen r (xactBodyStep · c)) (ok st))
      fun st => ok { st with level := st.level - 1 }

/-- `format_xact` (lines 326-335). -/
def formatXact (st : State) (n : Node) : FmtM :=
  match n.children.head? with
  | none => err st (.fail (errAtLocMsg n))
  | some c =>
    match c.kind with
    | "plain_xact" => formatPlainXact st c
    | "periodic_xact" => formatPeriodicXact st c
    | "automated_xact" => formatAutomatedXact st c
    | _ => ok st

/-- `format_journal_item` (lines 139-149): comments, block comments and
block tests are copied verbatim (no trailing line break of their own);
directives and transactions dispatch; unknown kinds are a no-op. -/
def formatJournalItem (st : State) (n : Node) : FmtM :=
  match n.kind with
  | "comment" => ok (st.printNode n)
  | "block_comment" => ok (st.printNode n)
  | "block_test" => ok (st.printNode n)
  | "directive" => formatDirective st n
  | "xact" => formatXact st n
  | _ => ok st

/-- The step `format_document` performs for one non-blank document child:
`format_journal_item(state, child.child(0).err_at_loc(&node)?)`; the
location on a missing inner child is the document node `n`. -/
def docItemStep (n : Node) (st : State) (child : Node) : FmtM :=
  match child.children.head? with
  | none => err st (.fail (errAtLocMsg n))
  | some inner => formatJournalItem st inner

/-- The loop body of `format_document` (lines 125-135), threading the
`added_newline` collapsing flag. -/
def docStep (n : Node) (acc : FmtM × Bool) (child : Node) : FmtM × Bool :=
  match acc with
  | ((st, .error e), added) => ((st, .error e), added)
  | ((st, .ok _), added) =>
    if child.kind == "\n" then
      if !added then (ok (st.println ""), true) else (ok st, true)
    else
      (docItemStep n st child, false)

/-- `format_document` (lines 121-137). -/
def formatDocument (st : State) (n : Node) : FmtM :=
  (n.children.foldl (docStep n) (ok st, false)).1

/-- The fresh state `beautify` builds (lines 93-102). -/
def initState (inplace : Bool) : State :=
  { formatted := "", stdoutBuf := "", inplace := inplace, col := 0, row := 0,
    level := 0, extra_indentation := 0, num_spaces := 2 }

/-- The post-parse part of `beautify` (lines 85-107).  `rootHasError` is the
provider's `root.has_error()` flag, which the code treats as possibly
inconsistent with the presence of ERROR nodes (hence the defensive branch).
On success the accumulated `formatted` buffer is returned, as in
`Ok(state.formatted)`. -/
def beautify (inplace : Bool) (root : Node) (rootHasError : Bool) :
    State × Except RErr String :=
  let st0 := initState inplace
  if rootHasError then
    match findFirstErrorNode root with
    | none => (st0, .error (.fail "An error occurred, but no ERROR node was found."))
    | some e =>
      (st0, .error (.fail ("Parsed file contain errors (at line " ++
        toString (e.row + 1) ++ ").")))
  else
    match formatDocument st0 root with
    | (st, .ok _) =>
      let st := st.println ""
      (st, .ok st.formatted)
    | (st, .error e) => (st, .error e)

/-- The padding before an amount as the specification states it, over the
integers: `max(0, 60 - current_column - length_of_leading_quantity_token - 1)`. -/
def specQuantityPad (col qlen : Int) : Int := max 0 (60 - col - qlen - 1)

/-- The fallback padding as the specification states it, over the integers:
`max(0, 60 - current_column)`. -/
def specFallbackPad (col : Int) : Int := max 0 (60 - col)

theorem sink_print (st : State) (s : String) : (st.print s).sink = st.sink ++ s := by
  by_cases h : st.inplace <;> simp [State.print, State.sink, h]

theorem sink_println (st : State) (s : String) :
    (st.println s).sink = st.sink ++ s ++ "\n" := by
  by_cases h : st.inplace <;> simp [State.println, State.sink, h]

/-- A posting whose account text already extends past the 60-column target. -/
def c1LongAccount : Node := .mk "account" true false 0 2 ⟨List.replicate 61 'a'⟩ []

def c1LongPosting : Node := .mk "posting" true false 0 0 "" [c1LongAccount]

/-- A posting well inside the 60-column target. -/
def c1OkAccount : Node := .mk "account" true false 0 2 "acct" []

def c1OkQuantity : Node := .mk "quantity" true false 0 8 "100.00" []

def c1OkAmount : Node := .mk "amount" true false 0 8 "" [c1OkQuantity]

def c1OkPosting : Node := .mk "posting" true false 0 0 "" [c1OkAccount, c1OkAmount]

/-- C1.  The claim says the padding is `max(0, 60 - col)` resp.
`max(0, 60 - col - qlen - 1)` with the maximum taken at 0, so that a line
already past the 60-column target formats gracefully.  The code computes
these expressions on `usize`, where `max(0, _)` is the identity and the
subtraction itself underflows: a posting whose account text ends past
column 60 aborts the run (debug builds panic with "attempt to subtract with
overflow"; release builds wrap and the following `" ".repeat` aborts),
while the spec's integer formula yields padding 0.  In range, the code and
the spec formula agree, as the second half shows on a concrete posting. -/
theorem c1_posting_padding_underflow :
    (formatPosting (initState true) c1LongPosting).2 =
        .error (.panicked underflowMsg) ∧
    specFallbackPad 61 = 0 ∧
    (formatPosting (initState true) c1OkPosting).1.formatted =
        "acct" ++ spaces 49 ++ "100.00" ++ "\n" ∧
    specQuantityPad 4 6 = 49 := by
  refine ⟨by rfl, by decide, by rfl, by decide⟩

/-- A document whose only child is an ERROR node starting on row 0. -/
def c4ErrChild : Node := .mk "ERROR" true true 0 3 "oops" []

def c4Root : Node := .mk "source_file" true false 0 0 "" [c4ErrChild]

/-- A root whose `has_error()` flag is set although no ERROR node exists. -/
def c4NoErrRoot : Node := .mk "source_file" true false 0 0 "" []

/-- C4 counterexample.  The message the code produces reads "Parsed file
contain errors (at line N)." — without the `s` of the claimed "contains" —
so the claimed message text is not the one returned. -/
theorem c4_error_message_counterexample :
    (beautify true c4Root true).2 =
        .error (.fail "Parsed file contain errors (at line 1).") ∧
    "Parsed file contain errors (at line 1)." ≠
        "Parsed file contains errors (at line 1)." := by
  refine ⟨by rfl, by decide⟩

/-- C4 amended.  With the message as the code spells it: when the provider's
error flag is set, `beautify` aborts before creating any output; if a first
ERROR node exists (depth-first, children in order) the message carries its
1-based line, and otherwise the distinct internal-inconsistency message is
returned. -/
theorem c4_error_abort_amended (root : Node) (ip : Bool) :
    (∀ e, findFirstErrorNode root = some e →
      beautify ip root true = (initState ip, .error (.fail
        ("Parsed file contain errors (at line " ++ toString (e.row + 1) ++ ").")))) ∧
    (findFirstErrorNode root = none →
      beautify ip root true = (initState ip, .error (.fail
        "An error occurred, but no ERROR node was found."))) ∧
    (initState ip).sink = "" := by
  refine ⟨fun e he => ?_, fun hn => ?_, by cases ip <;> rfl⟩
  · simp only [beautify, he, if_true]
  · simp only [beautify, hn, if_true]

theorem c4_error_abort_witness :
    beautify false c4Root true = (initState false, .error (.fail
      ("Parsed file contain errors (at line " ++ toString (c4ErrChild.row + 1) ++ ")."))) ∧
    beautify false c4NoErrRoot true = (initState false, .error (.fail
      "An error occurred, but no ERROR node was found.")) ∧
    (initState false).sink = "" :=
  ⟨(c4_error_abort_amended c4Root false).1 c4ErrChild (by rfl),
   ((c4_error_abort_amended c4NoErrRoot false).2.1 (by rfl)),
   (c4_error_abort_amended c4Root false).2.2⟩

/-- A periodic transaction with no `interval` child, wrapped as a document. -/
def c8Periodic : Node := .mk "periodic_xact" true false 0 0 "" []

def c8Xact : Node := .mk "xact" true false 0 0 "" [c8Periodic]

def c8Item : Node := .mk "journal_item" true false 0 0 "" [c8Xact]

def c8Doc : Node := .mk "source_file" true false 0 0 "" [c8Item]

/-- C8 counterexample.  In direct-output mode, a periodic transaction with a
missing `interval` child makes the run fail only after `"~ "` has already
been written to the stream: the failing run has emitted partial output. -/
theorem c8_partial_output_counterexample :
    (beautify false c8Doc false).2 = .error (.fail (errAtLocMsg c8Periodic)) ∧
    (beautify false c8Doc false).1.stdoutBuf = "~ " ∧
    ("~ " : String) ≠ "" := by
  refine ⟨by rfl, by rfl, by decide⟩

/-- C8 amended.  The guarantee that holds: every failure of the
pre-formatting error check (the only failure possible on trees the provider
flags as erroneous) aborts before any byte reaches either sink; structural
inconsistencies detected mid-traversal, by contrast, can leave already
printed text in the direct sink, as the counterexample shows. -/
theorem c8_precheck_no_output_amended (ip : Bool) (root : Node) :
    (beautify ip root true).1.formatted = "" ∧
    (beautify ip root true).1.stdoutBuf = "" ∧
    ∃ m, (beautify ip root true).2 = .error (.fail m) := by
  unfold beautify
  cases h : findFirstErrorNode root <;> simp [initState]

/-- The empty document. -/
def emptyDoc : Node := .mk "source_file" true false 0 0 "" []

/-- C10 counterexample.  In direct-output mode `beautify` returns
`Ok(state.formatted)` where the buffer was never written: the returned
formatted text is the empty string (the single newline went to the stream
instead), so the returned text is neither non-empty nor newline-terminated. -/
theorem c10_returned_empty_counterexample :
    (beautify false emptyDoc false).2 = .ok "" ∧
    (beautify false emptyDoc false).1.sink = "\n" := by
  refine ⟨by rfl, by rfl⟩

/-- C10 amended.  On every successful run, the *emitted* text — the buffer
in in-place mode, the stream bytes in direct mode — is non-empty and ends
with a line break, and an empty document emits exactly one newline; the
string *returned* by `beautify` is that text only in in-place mode (in
direct mode the empty buffer is returned, as the counterexample shows). -/
theorem c10_output_newline_amended (ip : Bool) (root : Node) (hasErr : Bool)
    (res : String) (h : (beautify ip root hasErr).2 = .ok res) :
    (beautify ip root hasErr).1.sink ≠ "" ∧
    ((beautify ip root hasErr).1.sink).data.getLast? = some '\n' ∧
    (root.children = [] → (beautify ip root hasErr).1.sink = "\n") := by
  cases hasErr with
  | true =>
    exfalso
    unfold beautify at h
    cases hfe : findFirstErrorNode root <;> simp [hfe] at h
  | false =>
    unfold beautify at h ⊢
    simp only [Bool.false_eq_true, if_false] at h ⊢
    cases hfd : formatDocument (initState ip) root with
    | mk st r =>
      cases r with
      | error e => rw [hfd] at h; simp at h
      | ok u =>
        show (st.println "").sink ≠ "" ∧
          ((st.println "").sink).data.getLast? = some '\n' ∧
          (root.children = [] → (st.println "").sink = "\n")
        have hlast : ((st.println "").sink).data.getLast? = some '\n' := by
          rw [sink_println, String.data_append, String.data_append]
          have hnl : ("\n" : String).data = ['\n'] := rfl
          rw [hnl]
          exact List.getLast?_concat _
        refine ⟨?_, hlast, ?_⟩
        · intro hempty
          rw [hempty] at hlast
          simp at hlast
        · intro hc
          have hdoc : formatDocument (initState ip) root = ok (initState ip) := by
            simp [formatDocument, hc]
          rw [hfd] at hdoc
          have hst : st = initState ip := congrArg Prod.fst hdoc
          rw [hst, sink_println]
          cases ip <;> rfl

theorem c10_output_newline_witness :
    (beautify true emptyDoc false).1.sink ≠ "" ∧
    ((beautify true emptyDoc false).1.sink).data.getLast? = some '\n' ∧
    (emptyDoc.children = [] → (beautify true emptyDoc false).1.sink = "\n") :=
  c10_output_newline_amended true emptyDoc false "\n" (by rfl)

theorem findKind_eq_none {l : List Node} {k : String}
    (h : ∀ c ∈ l, c.kind ≠ k) : findKind l k = none := by
  unfold findKind
  rw [List.find?_eq_none]
  intro c hc
  simpa using h c hc

/-- C7.  Each formatter that requires a specific named child fails, when
that child is absent, with the `err_at_loc` error carrying the row and
column of the node at which the expectation failed — `interval` on a
periodic transaction, `query` on an automated one,
`quantity`/`negative_quantity` on a posting's amount (for any status and
account text, provided their printing leaves the output column within the
60-column target — past it the run aborts even earlier, in the unchecked
`usize` subtraction), `value` on an argument subdirective — and never
silently omits the field. -/
theorem c7_missing_child_error :
    (∀ (st : State) (n : Node), (∀ c ∈ n.namedChildren, c.kind ≠ "interval") →
      (formatPeriodicXact st n).2 = .error (.fail (errAtLocMsg n))) ∧
    (∀ (st : State) (n : Node), (∀ c ∈ n.namedChildren, c.kind ≠ "query") →
      (formatAutomatedXact st n).2 = .error (.fail (errAtLocMsg n))) ∧
    (∀ (st : State) (n a : Node), (postingStatusAccount st n).col ≤ 60 →
      findKind n.namedChildren "amount" = some a →
      (∀ c ∈ a.namedChildren, c.kind ≠ "quantity" ∧ c.kind ≠ "negative_quantity") →
      (formatPosting st n).2 = .error (.fail (errAtLocMsg a))) ∧
    (∀ (st : State) (n : Node) (arg : String), (∀ c ∈ n.children, c.kind ≠ "value") →
      (formatArgumentSubdirective st n arg).2 = .error (.fail (errAtLocMsg n))) := by
  refine ⟨?_, ?_, ?_, ?_⟩
  · intro st n h
    unfold formatPeriodicXact
    rw [findKind_eq_none h]
    rfl
  · intro st n h
    unfold formatAutomatedXact
    rw [findKind_eq_none h]
    rfl
  · intro st n a hcol hm hq
    have hsub : checkedSub 60 (postingStatusAccount st n).col =
        some (60 - (postingStatusAccount st n).col) := by
      unfold checkedSub; rw [if_pos hcol]
    have hfq : a.namedChildren.find?
        (fun c => c.kind == "quantity" || c.kind == "negative_quantity") = none := by
      rw [List.find?_eq_none]
      intro c hc
      have := hq c hc
      simp [this.1, this.2]
    simp only [formatPosting, hsub, hm, hfq]
    rfl
  · intro st n arg h
    unfold formatArgumentSubdirective
    have h2 : findKind n.children "value" = none := findKind_eq_none h
    rw [h2]
    rfl

def c7Auto : Node := .mk "automated_xact" true false 1 2 "" []

def c7Amount : Node := .mk "amount" true false 2 5 "" []

def c7Account : Node := .mk "account" true false 2 2 "Assets" []

/-- An ordinary posting — status omitted, account present — whose amount
has neither a `quantity` nor a `negative_quantity` child. -/
def c7Posting : Node := .mk "posting" true false 2 0 "" [c7Account, c7Amount]

def c7Sub : Node := .mk "alias_subdirective" true false 3 1 "" []

theorem c7_missing_child_error_witness :
    (formatPeriodicXact (initState true) c8Periodic).2 =
        .error (.fail (errAtLocMsg c8Periodic)) ∧
    (formatAutomatedXact (initState true) c7Auto).2 =
        .error (.fail (errAtLocMsg c7Auto)) ∧
    (formatPosting (initState true) c7Posting).2 =
        .error (.fail (errAtLocMsg c7Amount)) ∧
    (formatArgumentSubdirective (initState true) c7Sub "alias").2 =
        .error (.fail (errAtLocMsg c7Sub)) :=
  ⟨c7_missing_child_error.1 (initState true) c8Periodic
      (by intro c hc; simp [c8Periodic, Node.namedChildren, Node.children] at hc),
   c7_missing_child_error.2.1 (initState true) c7Auto
      (by intro c hc; simp [c7Auto, Node.namedChildren, Node.children] at hc),
   c7_missing_child_error.2.2.1 (initState true) c7Posting c7Amount (by decide)
      (by rfl)
      (by intro c hc; simp [c7Amount, Node.namedChildren, Node.children] at hc),
   c7_missing_child_error.2.2.2 (initState true) c7Sub "alias"
      (by intro c hc; simp [c7Sub, Node.children] at hc)⟩

theorem level_print (st : State) (s : String) : (st.print s).level = st.level := by
  by_cases h : st.inplace <;> simp [State.print, h]

theorem level_println (st : State) (s : String) : (st.println s).level = st.level := by
  by_cases h : st.inplace <;> simp [State.println, h]

theorem level_printNode (st : State) (n : Node) :
    (st.printNode n).level = st.level := level_print st n.text

theorem level_foldl_state {α : Type} (f : State → α → State)
    (hf : ∀ st a, (f st a).level = st.level) (l : List α) :
    ∀ st : State, (l.foldl f st).level = st.level := by
  induction l with
  | nil => intro st; rfl
  | cons x xs ih => intro st; rw [List.foldl_cons, ih, hf]

theorem level_indent (st : State) : st.indent.level = st.level := by
  show ((List.range st.extra_indentation).foldl (fun a _ => a.print " ")
    ((List.range st.level).foldl (fun a _ => a.print (spaces a.num_spaces)) st)).level
      = st.level
  rw [level_foldl_state _ (fun st2 _ => level_print st2 " "),
      level_foldl_state _ (fun st2 _ => level_print st2 _)]

theorem level_andThen (r : FmtM) (f : State → FmtM)
    (hf : ∀ st, ((f st).1).level = st.level) :
    ((andThen r f).1).level = (r.1).level := by
  obtain ⟨st, e⟩ := r
  cases e with
  | ok u => exact hf st
  | error e => rfl

theorem level_foldl_fmtm {α : Type} (f : FmtM → α → FmtM)
    (hf : ∀ r a, ((f r a).1).level = ((r.1 : State)).level) (l : List α) :
    ∀ r : FmtM, ((l.foldl f r).1).level = (r.1).level := by
  induction l with
  | nil => intro r; rfl
  | cons x xs ih => intro r; rw [List.foldl_cons, ih, hf]

theorem level_formatAmount (st : State) (n : Node) :
    ((formatAmount st n).1).level = st.level := by
  simp only [formatAmount]
  cases findKind n.namedChildren "negative_quantity" <;>
  cases findKind n.namedChildren "quantity" <;>
  cases findKind n.namedChildren "commodity" <;>
  simp [ok, level_print]

theorem level_formatPrice (st : State) (n : Node) :
    ((formatPrice st n).1).level = st.level := by
  simp only [formatPrice]
  cases n.children.head? with
  | none => rfl
  | some c =>
    cases findKind n.namedChildren "amount" with
    | none => simp [err, State.printNode, level_print]
    | some a => simp [level_formatAmount, State.printNode, level_print]

theorem level_formatBalanceAssertion (st : State) (n : Node) :
    ((formatBalanceAssertion st n).1).level = st.level := by
  simp only [formatBalanceAssertion]
  cases findKind n.namedChildren "amount" with
  | none => simp [err, level_print]
  | some a => simp [level_formatAmount, level_print]

theorem level_postingNoteStep (st : State) (spacing : String) (n : Node) :
    ((postingNoteStep st spacing n).1).level = st.level := by
  simp only [postingNoteStep]
  cases findKind n.namedChildren "note" <;> simp [ok, level_println, level_print]

theorem level_postingBalStep (st : State) (spacing : String) (n : Node) :
    ((postingBalStep st spacing n).1).level = st.level := by
  simp only [postingBalStep]
  cases findKind n.namedChildren "balance_assertion" with
  | none => exact level_postingNoteStep st spacing n
  | some b =>
    rw [level_andThen _ _ (fun st2 => level_postingNoteStep st2 " " n)]
    rw [level_formatBalanceAssertion, level_print]

theorem level_formatPostingTail (st : State) (spacing : String) (n : Node) :
    ((formatPostingTail st spacing n).1).level = st.level := by
  simp only [formatPostingTail]
  cases findKind n.namedChildren "price" with
  | none => exact level_postingBalStep st spacing n
  | some p =>
    rw [level_andThen _ _ (fun st2 => level_postingBalStep st2 " " n)]
    rw [level_formatPrice, level_print]

theorem level_postingStatusAccount (st : State) (n : Node) :
    (postingStatusAccount st n).level = st.level := by
  simp only [postingStatusAccount]
  cases findKind n.namedChildren "status" <;>
  cases findKind n.namedChildren "account" <;>
  simp [level_printNode]

theorem level_formatPosting (st : State) (n : Node) :
    ((formatPosting st n).1).level = st.level := by
  have hps := level_postingStatusAccount st n
  simp only [formatPosting]
  split
  · simpa [err] using hps
  · split
    · split
      · simpa [err] using hps
      · split
        · simpa [err] using hps
        · rw [level_andThen _ _ (fun st2 => level_formatPostingTail st2 " " n),
            level_formatAmount, level_print, hps]
    · rw [level_formatPostingTail, hps]

theorem level_formatArgumentSubdirective (st : State) (n : Node) (arg : String) :
    ((formatArgumentSubdirective st n arg).1).level = st.level := by
  simp only [formatArgumentSubdirective]
  cases findKind n.children "value" with
  | none => simp [err, level_print]
  | some v => simp [ok, level_printNode, level_print]

theorem level_formatFormatSubdirective (st : State) (n : Node) :
    ((formatFormatSubdirective st n).1).level = st.level := by
  simp only [formatFormatSubdirective]
  cases findKind n.children "amount" with
  | none => simp [err, level_print]
  | some a => simp [level_formatAmount, level_print]

theorem level_accountSubStep (st : State) (c : Node) :
    ((accountSubStep st c).1).level = st.level := by
  simp only [accountSubStep]
  split
  · rfl
  · split <;>
      simp [level_formatArgumentSubdirective, level_indent, ok, level_println]

theorem level_commoditySubStep (st : State) (c : Node) :
    ((commoditySubStep st c).1).level = st.level := by
  simp only [commoditySubStep]
  split
  · rfl
  · split <;>
      simp [level_formatArgumentSubdirective, level_formatFormatSubdirective,
        level_indent, ok, level_println]

theorem level_tagSubStep (st : State) (c : Node) :
    ((tagSubStep st c).1).level = st.level := by
  simp only [tagSubStep]
  split <;> simp [level_formatArgumentSubdirective, level_indent, ok]

theorem level_xactBodyStep (st : State) (c : Node) :
    ((xactBodyStep st c).1).level = st.level := by
  simp only [xactBodyStep]
  split <;>
    simp [ok, level_println, level_indent, level_formatPosting]

theorem level_plainXactHeadStep (st : State) (c : Node) :
    (plainXactHeadStep st c).level = st.level := by
  simp only [plainXactHeadStep]
  split <;> simp [level_printNode, level_print]

theorem level_wordStep (p : State × Bool) (child : Node) :
    ((wordStep p child).1).level = (p.1).level := by
  simp only [wordStep]
  by_cases h1 : child.kind == "whitespace"
  · simp [h1]
  · simp only [h1, if_false, Bool.false_eq_true]
    by_cases h2 : rustTrim child.text == ""
    · simp [h2]
    · simp only [h2, if_false, Bool.false_eq_true]
      by_cases h3 : p.2 <;> simp [h3, level_print]

theorem level_formatWordDirective (st : State) (n : Node) :
    ((formatWordDirective st n).1).level = st.level := by
  simp only [formatWordDirective, ok]
  rw [level_println]
  have : ∀ (l : List Node) (p : State × Bool),
      ((l.foldl wordStep p).1).level = (p.1).level := by
    intro l
    induction l with
    | nil => intro p; rfl
    | cons x xs ih =>
      intro p
      rw [List.foldl_cons, ih, level_wordStep]
  exact this n.children (st, true)

/-- The `state.level += 1; ...; state.level -= 1` pattern: if the loop in
between returns successfully having preserved its level, the final level is
the original one. -/
theorem level_incr_decr (r : FmtM) (st' : State) (L : Nat)
    (hr : ((r.1).level) = L + 1)
    (h : andThen r (fun st2 => ok { st2 with level := st2.level - 1 }) =
      (st', .ok ())) :
    st'.level = L := by
  obtain ⟨stf, e⟩ := r
  cases e with
  | error e => simp [andThen] at h
  | ok u =>
    have h1 : ({ stf with level := stf.level - 1 } : State) = st' :=
      congrArg Prod.fst h
    rw [← h1]
    simp at hr
    simp [hr]

theorem level_formatAccountDirective (st st' : State) (n : Node)
    (h : formatAccountDirective st n = (st', .ok ())) : st'.level = st.level := by
  simp only [formatAccountDirective] at h
  cases hh : n.namedChildren.head? with
  | none =>
    rw [hh] at h
    exact absurd (congrArg Prod.snd h) (by simp [err])
  | some acct =>
    rw [hh] at h
    refine level_incr_decr _ _ st.level ?_ h
    rw [level_foldl_fmtm _
      (fun r c => level_andThen r _ (fun st2 => level_accountSubStep st2 c))]
    simp [ok, level_println, level_print]

theorem level_formatCommodityDirective (st st' : State) (n : Node)
    (h : formatCommodityDirective st n = (st', .ok ())) : st'.level = st.level := by
  simp only [formatCommodityDirective] at h
  cases hh : n.namedChildren.head? with
  | none =>
    rw [hh] at h
    exact absurd (congrArg Prod.snd h) (by simp [err])
  | some c =>
    rw [hh] at h
    refine level_incr_decr _ _ st.level ?_ h
    rw [level_foldl_fmtm _
      (fun r c => level_andThen r _ (fun st2 => level_commoditySubStep st2 c))]
    simp [ok, level_println, level_print]

theorem level_formatTagDirective (st st' : State) (n : Node)
    (h : formatTagDirective st n = (st', .ok ())) : st'.level = st.level := by
  simp only [formatTagDirective] at h
  cases hh : findKind n.namedChildren "tag" with
  | none =>
    rw [hh] at h
    exact absurd (congrArg Prod.snd h) (by simp [err])
  | some tg =>
    rw [hh] at h
    refine level_incr_decr _ _ st.level ?_ h
    rw [level_foldl_fmtm _
      (fun r c => level_andThen r _ (fun st2 => level_tagSubStep st2 c))]
    simp [ok, level_println, level_print]

theorem level_formatPlainXact (st st' : State) (n : Node)
    (h : formatPlainXact st n = (st', .ok ())) : st'.level = st.level := by
  simp only [formatPlainXact] at h
  refine level_incr_decr _ _ st.level ?_ h
  rw [level_foldl_fmtm _
    (fun r c => level_andThen r _ (fun st2 => level_xactBodyStep st2 c))]
  simp only [ok]
  rw [level_println, level_foldl_state _ level_plainXactHeadStep]

theorem level_formatPeriodicXact (st st' : State) (n : Node)
    (h : formatPeriodicXact st n = (st', .ok ())) : st'.level = st.level := by
  simp only [formatPeriodicXact] at h
  cases hh : findKind n.namedChildren "interval" with
  | none =>
    rw [hh] at h
    exact absurd (congrArg Prod.snd h) (by simp [err])
  | some iv =>
    rw [hh] at h
    refine level_incr_decr _ _ st.level ?_ h
    rw [level_foldl_fmtm _
      (fun r c => level_andThen r _ (fun st2 => level_xactBodyStep st2 c))]
    simp only [ok]
    rw [level_println]
    cases findKind n.namedChildren "note" <;>
      simp [level_printNode, level_print]

theorem level_formatAutomatedXact (st st' : State) (n : Node)
    (h : formatAutomatedXact st n = (st', .ok ())) : st'.level = st.level := by
  simp only [formatAutomatedXact] at h
  cases hh : findKind n.namedChildren "query" with
  | none =>
    rw [hh] at h
    exact absurd (congrArg Prod.snd h) (by simp [err])
  | some q =>
    rw [hh] at h
    refine level_incr_decr _ _ st.level ?_ h
    rw [level_foldl_fmtm _
      (fun r c => level_andThen r _ (fun st2 => level_xactBodyStep st2 c))]
    simp only [ok]
    rw [level_println]
    cases findKind n.namedChildren "note" <;>
      simp [level_printNode, level_print]

/-- C9.  Every formatter that increments the indentation level restores it:
for every directive node and every transaction node, the layout state's
`level` field after a successful return equals its value before the call. -/
theorem c9_level_restored :
    (∀ (st : State) (n : Node) (st' : State),
      formatDirective st n = (st', .ok ()) → st'.level = st.level) ∧
    (∀ (st : State) (n : Node) (st' : State),
      formatXact st n = (st', .ok ()) → st'.level = st.level) := by
  constructor
  · intro st n st' h
    simp only [formatDirective] at h
    split at h
    · exact absurd (congrArg Prod.snd h) (by simp [err])
    · split at h
      · have h1 : _ = st' := congrArg Prod.fst h
        rw [← h1]
        simp [ok, level_printNode]
      · exact level_formatAccountDirective st st' _ h
      · exact level_formatCommodityDirective st st' _ h
      · exact level_formatTagDirective st st' _ h
      · have h1 : _ = st' := congrArg Prod.fst h
        rw [← h1]
        exact level_formatWordDirective _ _
      · have h1 : _ = st' := congrArg Prod.fst h
        rw [← h1]
        exact level_formatWordDirective _ _
      · have h1 : _ = st' := congrArg Prod.fst h
        rw [← h1]
        simp [ok]
  · intro st n st' h
    simp only [formatXact] at h
    split at h
    · exact absurd (congrArg Prod.snd h) (by simp [err])
    · split at h
      · exact level_formatPlainXact st st' _ h
      · exact level_formatPeriodicXact st st' _ h
      · exact level_formatAutomatedXact st st' _ h
      · have h1 : _ = st' := congrArg Prod.fst h
        rw [← h1]
        simp [ok]

def c9WordDir : Node := .mk "word_directive" true false 0 0 "" []

def c9Directive : Node := .mk "directive" true false 0 0 "" [c9WordDir]

def c9Plain : Node := .mk "plain_xact" true false 0 0 "" []

def c9Xact : Node := .mk "xact" true false 0 0 "" [c9Plain]

theorem c9_level_restored_witness :
    ((formatDirective (initState true) c9Directive).1).level =
        (initState true).level ∧
    ((formatXact (initState true) c9Xact).1).level = (initState true).level :=
  ⟨c9_level_restored.1 (initState true) c9Directive
      ((formatDirective (initState true) c9Directive).1) (by rfl),
   c9_level_restored.2 (initState true) c9Xact
      ((formatXact (initState true) c9Xact).1) (by rfl)⟩

/-- Exchanging the two output sinks together with the mode flag.  A state
and its sink-swap perform identical formatting work; only which sink
receives the bytes differs.  This is the simulation underlying the
mode-equivalence claim. -/
def State.swapSinks (st : State) : State :=
  { st with
      inplace := !st.inplace
      formatted := st.stdoutBuf
      stdoutBuf := st.formatted }

def swapF (r : FmtM) : FmtM := (r.1.swapSinks, r.2)

theorem swap_print (st : State) (s : String) :
    (st.swapSinks).print s = (st.print s).swapSinks := by
  by_cases h : st.inplace <;> simp [State.print, State.swapSinks, h]

theorem swap_println (st : State) (s : String) :
    (st.swapSinks).println s = (st.println s).swapSinks := by
  by_cases h : st.inplace <;> simp [State.println, State.swapSinks, h]

theorem swap_printNode (st : State) (n : Node) :
    (st.swapSinks).printNode n = (st.printNode n).swapSinks :=
  swap_print st n.text

theorem foldl_swapSinks {α : Type} (f : State → α → State)
    (hf : ∀ st a, f st.swapSinks a = (f st a).swapSinks) (l : List α) :
    ∀ st, l.foldl f st.swapSinks = (l.foldl f st).swapSinks := by
  induction l with
  | nil => intro st; rfl
  | cons x xs ih => intro st; rw [List.foldl_cons, hf, ih, List.foldl_cons]

theorem swap_indent (st : State) : (st.swapSinks).indent = st.indent.swapSinks := by
  show (List.range st.extra_indentation).foldl (fun a _ => a.print " ")
      ((List.range st.level).foldl (fun a _ => a.print (spaces a.num_spaces))
        st.swapSinks)
    = ((List.range st.extra_indentation).foldl (fun a _ => a.print " ")
      ((List.range st.level).foldl (fun a _ => a.print (spaces a.num_spaces))
        st)).swapSinks
  rw [foldl_swapSinks (fun a _ => a.print (spaces a.num_spaces))
        (fun a _ => swap_print a (spaces a.num_spaces)),
      foldl_swapSinks (fun a _ => a.print " ") (fun a _ => swap_print a " ")]

theorem swap_andThen (r : FmtM) (f : State → FmtM)
    (hf : ∀ st, f st.swapSinks = swapF (f st)) :
    andThen (swapF r) f = swapF (andThen r f) := by
  obtain ⟨st, e⟩ := r
  cases e with
  | ok u => exact hf st
  | error e => rfl

theorem foldl_swapF {α : Type} (f : FmtM → α → FmtM)
    (hf : ∀ r a, f (swapF r) a = swapF (f r a)) (l : List α) :
    ∀ r, l.foldl f (swapF r) = swapF (l.foldl f r) := by
  induction l with
  | nil => intro r; rfl
  | cons x xs ih => intro r; rw [List.foldl_cons, hf, ih, List.foldl_cons]

theorem swap_formatAmount (st : State) (n : Node) :
    formatAmount st.swapSinks n = swapF (formatAmount st n) := by
  simp only [formatAmount]
  cases findKind n.namedChildren "negative_quantity" <;>
  cases findKind n.namedChildren "quantity" <;>
  cases findKind n.namedChildren "commodity" <;>
  simp [ok, swapF, swap_print]

theorem swap_formatPrice (st : State) (n : Node) :
    formatPrice st.swapSinks n = swapF (formatPrice st n) := by
  simp only [formatPrice]
  cases n.children.head? with
  | none => rfl
  | some c =>
    dsimp only
    cases findKind n.namedChildren "amount" with
    | none => dsimp only; rw [swap_printNode, swap_print]; rfl
    | some a => dsimp only; rw [swap_printNode, swap_print, swap_formatAmount]

theorem swap_formatBalanceAssertion (st : State) (n : Node) :
    formatBalanceAssertion st.swapSinks n = swapF (formatBalanceAssertion st n) := by
  simp only [formatBalanceAssertion]
  cases findKind n.namedChildren "amount" with
  | none => dsimp only; rw [swap_print]; rfl
  | some a => dsimp only; rw [swap_print, swap_formatAmount]

theorem swap_postingNoteStep (st : State) (spacing : String) (n : Node) :
    postingNoteStep st.swapSinks spacing n = swapF (postingNoteStep st spacing n) := by
  simp only [postingNoteStep]
  cases findKind n.namedChildren "note" with
  | none => dsimp only; rw [swap_println]; rfl
  | some note => dsimp only; rw [swap_print, swap_print, swap_println]; rfl

theorem swap_postingBalStep (st : State) (spacing : String) (n : Node) :
    postingBalStep st.swapSinks spacing n = swapF (postingBalStep st spacing n) := by
  simp only [postingBalStep]
  cases findKind n.namedChildren "balance_assertion" with
  | none => exact swap_postingNoteStep st spacing n
  | some b =>
    dsimp only
    rw [swap_print, swap_formatBalanceAssertion,
      swap_andThen _ _ (fun st2 => swap_postingNoteStep st2 " " n)]

theorem swap_formatPostingTail (st : State) (spacing : String) (n : Node) :
    formatPostingTail st.swapSinks spacing n = swapF (formatPostingTail st spacing n) := by
  simp only [formatPostingTail]
  cases findKind n.namedChildren "price" with
  | none => exact swap_postingBalStep st spacing n
  | some p =>
    dsimp only
    rw [swap_print, swap_formatPrice,
      swap_andThen _ _ (fun st2 => swap_postingBalStep st2 " " n)]

theorem swap_postingStatusAccount (st : State) (n : Node) :
    postingStatusAccount st.swapSinks n = (postingStatusAccount st n).swapSinks := by
  simp only [postingStatusAccount]
  cases findKind n.namedChildren "status" <;>
  cases findKind n.namedChildren "account" <;>
  simp [swap_printNode]

theorem swapSinks_col (st : State) : st.swapSinks.col = st.col := rfl

theorem swap_formatPosting (st : State) (n : Node) :
    formatPosting st.swapSinks n = swapF (formatPosting st n) := by
  simp only [formatPosting, swap_postingStatusAccount, swapSinks_col]
  cases checkedSub 60 (postingStatusAccount st n).col with
  | none => rfl
  | some pad0 =>
    dsimp only
    cases findKind n.namedChildren "amount" with
    | none => dsimp only; exact swap_formatPostingTail _ _ n
    | some amount =>
      dsimp only
      cases amount.namedChildren.find?
          (fun c => c.kind == "quantity" || c.kind == "negative_quantity") with
      | none => rfl
      | some q =>
        dsimp only
        cases (checkedSub pad0 (utf8Len (rustTrim q.text))).bind
            (fun x => checkedSub x 1) with
        | none => rfl
        | some qpad =>
          dsimp only
          rw [swap_print, swap_formatAmount,
            swap_andThen _ _ (fun st2 => swap_formatPostingTail st2 " " n)]

theorem swap_formatArgumentSubdirective (st : State) (n : Node) (arg : String) :
    formatArgumentSubdirective st.swapSinks n arg =
      swapF (formatArgumentSubdirective st n arg) := by
  simp only [formatArgumentSubdirective]
  cases findKind n.children "value" with
  | none => dsimp only; rw [swap_print, swap_print]; rfl
  | some v => dsimp only; rw [swap_print, swap_print, swap_printNode]; rfl

theorem swap_formatFormatSubdirective (st : State) (n : Node) :
    formatFormatSubdirective st.swapSinks n = swapF (formatFormatSubdirective st n) := by
  simp only [formatFormatSubdirective]
  cases findKind n.children "amount" with
  | none => dsimp only; rw [swap_print]; rfl
  | some a => dsimp only; rw [swap_print, swap_formatAmount]

theorem swap_accountSubStep (st : State) (c : Node) :
    accountSubStep st.swapSinks c = swapF (accountSubStep st c) := by
  simp only [accountSubStep]
  cases c.children.head? with
  | none => rfl
  | some inner =>
    dsimp only
    split <;>
      simp [ok, swapF, swap_indent, swap_println,
        swap_formatArgumentSubdirective]

theorem swap_commoditySubStep (st : State) (c : Node) :
    commoditySubStep st.swapSinks c = swapF (commoditySubStep st c) := by
  simp only [commoditySubStep]
  cases c.children.head? with
  | none => rfl
  | some inner =>
    dsimp only
    split <;>
      simp [ok, swapF, swap_indent, swap_println,
        swap_formatArgumentSubdirective, swap_formatFormatSubdirective]

theorem swap_tagSubStep (st : State) (c : Node) :
    tagSubStep st.swapSinks c = swapF (tagSubStep st c) := by
  simp only [tagSubStep]
  split <;>
    simp [ok, swapF, swap_indent, swap_formatArgumentSubdirective]

theorem swap_setLevelUp (st : State) :
    ({ st.swapSinks with level := st.swapSinks.level + 1 } : State) =
      ({ st with level := st.level + 1 } : State).swapSinks := rfl

theorem swap_formatAccountDirective (st : State) (n : Node) :
    formatAccountDirective st.swapSinks n = swapF (formatAccountDirective st n) := by
  simp only [formatAccountDirective]
  cases n.namedChildren.head? with
  | none => dsimp only; rw [swap_print]; rfl
  | some acct =>
    dsimp only
    rw [swap_print, swap_println, swap_setLevelUp,
      show ok (({ (st.print "account ").println acct.text with
          level := ((st.print "account ").println acct.text).level + 1 } :
            State).swapSinks)
        = swapF (ok ({ (st.print "account ").println acct.text with
          level := ((st.print "account ").println acct.text).level + 1 } :
            State)) from rfl,
      foldl_swapF (fun r child => andThen r fun st2 => accountSubStep st2 child)
        (fun r child => swap_andThen r (fun st2 => accountSubStep st2 child)
          (fun st2 => swap_accountSubStep st2 child)),
      swap_andThen _ (fun st2 => ok { st2 with level := st2.level - 1 })
        (fun st2 => rfl)]

theorem swap_formatCommodityDirective (st : State) (n : Node) :
    formatCommodityDirective st.swapSinks n = swapF (formatCommodityDirective st n) := by
  simp only [formatCommodityDirective]
  cases n.namedChildren.head? with
  | none => dsimp only; rw [swap_print]; rfl
  | some c =>
    dsimp only
    rw [swap_print, swap_println, swap_setLevelUp,
      show ok (({ (st.print "commodity ").println c.text with
          level := ((st.print "commodity ").println c.text).level + 1 } :
            State).swapSinks)
        = swapF (ok ({ (st.print "commodity ").println c.text with
          level := ((st.print "commodity ").println c.text).level + 1 } :
            State)) from rfl,
      foldl_swapF (fun r child => andThen r fun st2 => commoditySubStep st2 child)
        (fun r child => swap_andThen r (fun st2 => commoditySubStep st2 child)
          (fun st2 => swap_commoditySubStep st2 child)),
      swap_andThen _ (fun st2 => ok { st2 with level := st2.level - 1 })
        (fun st2 => rfl)]

theorem swap_formatTagDirective (st : State) (n : Node) :
    formatTagDirective st.swapSinks n = swapF (formatTagDirective st n) := by
  simp only [formatTagDirective]
  cases findKind n.namedChildren "tag" with
  | none => dsimp only; rw [swap_print]; rfl
  | some tg =>
    dsimp only
    rw [swap_print, swap_println, swap_setLevelUp,
      show ok (({ (st.print "tag ").println (rustTrim tg.text) with
          level := ((st.print "tag ").println (rustTrim tg.text)).level + 1 } :
            State).swapSinks)
        = swapF (ok ({ (st.print "tag ").println (rustTrim tg.text) with
          level := ((st.print "tag ").println (rustTrim tg.text)).level + 1 } :
            State)) from rfl,
      foldl_swapF (fun r child => andThen r fun st2 => tagSubStep st2 child)
        (fun r child => swap_andThen r (fun st2 => tagSubStep st2 child)
          (fun st2 => swap_tagSubStep st2 child)),
      swap_andThen _ (fun st2 => ok { st2 with level := st2.level - 1 })
        (fun st2 => rfl)]

theorem foldl_swap_pair {α : Type} (f : State × Bool → α → State × Bool)
    (hf : ∀ (st : State) (b : Bool) (a : α), f (st.swapSinks, b) a =
      ((f (st, b) a).1.swapSinks, (f (st, b) a).2)) (l : List α) :
    ∀ (st : State) (b : Bool), l.foldl f (st.swapSinks, b) =
      ((l.foldl f (st, b)).1.swapSinks, (l.foldl f (st, b)).2) := by
  induction l with
  | nil => intro st b; rfl
  | cons x xs ih =>
    intro st b
    rw [List.foldl_cons, hf, ih, List.foldl_cons]

theorem swap_wordStep (st : State) (b : Bool) (child : Node) :
    wordStep (st.swapSinks, b) child =
      ((wordStep (st, b) child).1.swapSinks, (wordStep (st, b) child).2) := by
  simp only [wordStep]
  by_cases h1 : child.kind == "whitespace"
  · simp [h1]
  · simp only [h1, Bool.false_eq_true, if_false]
    by_cases h2 : rustTrim child.text == ""
    · simp [h2]
    · simp only [h2, Bool.false_eq_true, if_false]
      cases b <;> simp [swap_print]

theorem swap_formatWordDirective (st : State) (n : Node) :
    formatWordDirective st.swapSinks n = swapF (formatWordDirective st n) := by
  simp only [formatWordDirective]
  rw [foldl_swap_pair wordStep (fun st2 b a => swap_wordStep st2 b a) n.children st true]
  dsimp only
  rw [swap_println]
  rfl

theorem swap_formatDirective (st : State) (n : Node) :
    formatDirective st.swapSinks n = swapF (formatDirective st n) := by
  simp only [formatDirective]
  cases n.children.head? with
  | none => rfl
  | some c =>
    dsimp only
    split <;>
      first
        | (rw [swap_printNode]; rfl)
        | exact swap_formatAccountDirective st _
        | exact swap_formatCommodityDirective st _
        | exact swap_formatTagDirective st _
        | exact swap_formatWordDirective st _
        | rfl

theorem swap_plainXactHeadStep (st : State) (c : Node) :
    plainXactHeadStep st.swapSinks c = (plainXactHeadStep st c).swapSinks := by
  simp only [plainXactHeadStep]
  split <;> simp [swap_printNode, swap_print]

theorem swap_xactBodyStep (st : State) (c : Node) :
    xactBodyStep st.swapSinks c = swapF (xactBodyStep st c) := by
  simp only [xactBodyStep]
  split <;>
    simp [ok, swapF, swap_indent, swap_println, swap_formatPosting]

theorem swap_formatPlainXact (st : State) (n : Node) :
    formatPlainXact st.swapSinks n = swapF (formatPlainXact st n) := by
  simp only [formatPlainXact]
  rw [foldl_swapSinks plainXactHeadStep (fun st2 c => swap_plainXactHeadStep st2 c),
    swap_println, swap_setLevelUp,
    show ∀ st2 : State, ok st2.swapSinks = swapF (ok st2) from fun _ => rfl,
    foldl_swapF (fun r c => andThen r fun st2 => xactBodyStep st2 c)
      (fun r c => swap_andThen r (fun st2 => xactBodyStep st2 c)
        (fun st2 => swap_xactBodyStep st2 c)),
    swap_andThen _ (fun st2 => ok { st2 with level := st2.level - 1 })
      (fun st2 => rfl)]

theorem swap_formatPeriodicXact (st : State) (n : Node) :
    formatPeriodicXact st.swapSinks n = swapF (formatPeriodicXact st n) := by
  simp only [formatPeriodicXact]
  rw [swap_print]
  cases findKind n.namedChildren "interval" with
  | none => rfl
  | some iv =>
    dsimp only
    rw [swap_print]
    cases findKind n.namedChildren "note" with
    | none =>
      dsimp only
      rw [swap_println, swap_setLevelUp,
        show ∀ st2 : State, ok st2.swapSinks = swapF (ok st2) from fun _ => rfl,
        foldl_swapF (fun r c => andThen r fun st2 => xactBodyStep st2 c)
          (fun r c => swap_andThen r (fun st2 => xactBodyStep st2 c)
            (fun st2 => swap_xactBodyStep st2 c)),
        swap_andThen _ (fun st2 => ok { st2 with level := st2.level - 1 })
          (fun st2 => rfl)]
    | some note =>
      dsimp only
      rw [swap_print, swap_printNode, swap_println, swap_setLevelUp,
        show ∀ st2 : State, ok st2.swapSinks = swapF (ok st2) from fun _ => rfl,
        foldl_swapF (fun r c => andThen r fun st2 => xactBodyStep st2 c)
          (fun r c => swap_andThen r (fun st2 => xactBodyStep st2 c)
            (fun st2 => swap_xactBodyStep st2 c)),
        swap_andThen _ (fun st2 => ok { st2 with level := st2.level - 1 })
          (fun st2 => rfl)]

theorem swap_formatAutomatedXact (st : State) (n : Node) :
    formatAutomatedXact st.swapSinks n = swapF (formatAutomatedXact st n) := by
  simp only [formatAutomatedXact]
  rw [swap_print]
  cases findKind n.namedChildren "query" with
  | none => rfl
  | some q =>
    dsimp only
    rw [swap_print]
    cases findKind n.namedChildren "note" with
    | none =>
      dsimp only
      rw [swap_println, swap_setLevelUp,
        show ∀ st2 : State, ok st2.swapSinks = swapF (ok st2) from fun _ => rfl,
        foldl_swapF (fun r c => andThen r fun st2 => xactBodyStep st2 c)
          (fun r c => swap_andThen r (fun st2 => xactBodyStep st2 c)
            (fun st2 => swap_xactBodyStep st2 c)),
        swap_andThen _ (fun st2 => ok { st2 with level := st2.level - 1 })
          (fun st2 => rfl)]
    | some note =>
      dsimp only
      rw [swap_print, swap_printNode, swap_println, swap_setLevelUp,
        show ∀ st2 : State, ok st2.swapSinks = swapF (ok st2) from fun _ => rfl,
        foldl_swapF (fun r c => andThen r fun st2 => xactBodyStep st2 c)
          (fun r c => swap_andThen r (fun st2 => xactBodyStep st2 c)
            (fun st2 => swap_xactBodyStep st2 c)),
        swap_andThen _ (fun st2 => ok { st2 with level := st2.level - 1 })
          (fun st2 => rfl)]

theorem swap_formatXact (st : State) (n : Node) :
    formatXact st.swapSinks n = swapF (formatXact st n) := by
  simp only [formatXact]
  cases n.children.head? with
  | none => rfl
  | some c =>
    dsimp only
    split <;>
      first
        | exact swap_formatPlainXact st _
        | exact swap_formatPeriodicXact st _
        | exact swap_formatAutomatedXact st _
        | rfl

theorem swap_formatJournalItem (st : State) (n : Node) :
    formatJournalItem st.swapSinks n = swapF (formatJournalItem st n) := by
  simp only [formatJournalItem]
  split <;>
    first
      | (rw [swap_printNode]; rfl)
      | exact swap_formatDirective st _
      | exact swap_formatXact st _
      | rfl

theorem swap_docItemStep (n : Node) (st : State) (child : Node) :
    docItemStep n st.swapSinks child = swapF (docItemStep n st child) := by
  simp only [docItemStep]
  cases child.children.head? with
  | none => rfl
  | some inner => exact swap_formatJournalItem st inner

theorem swap_docStep (n : Node) (r : FmtM) (b : Bool) (c : Node) :
    docStep n (swapF r, b) c =
      (swapF (docStep n (r, b) c).1, (docStep n (r, b) c).2) := by
  obtain ⟨st, e⟩ := r
  cases e with
  | error e => rfl
  | ok u =>
    show docStep n ((st.swapSinks, .ok ()), b) c = _
    simp only [docStep]
    by_cases hk : c.kind == "\n"
    · cases b <;> simp [hk, ok, swapF, swap_println]
    · simp only [hk, Bool.false_eq_true, if_false]
      rw [swap_docItemStep]

theorem foldl_swap_docStep (n : Node) (l : List Node) :
    ∀ (r : FmtM) (b : Bool), l.foldl (docStep n) (swapF r, b) =
      (swapF (l.foldl (docStep n) (r, b)).1, (l.foldl (docStep n) (r, b)).2) := by
  induction l with
  | nil => intro r b; rfl
  | cons x xs ih =>
    intro r b
    rw [List.foldl_cons, swap_docStep, ih, List.foldl_cons]

theorem swap_formatDocument (st : State) (n : Node) :
    formatDocument st.swapSinks n = swapF (formatDocument st n) := by
  simp only [formatDocument]
  rw [show ((ok st.swapSinks, false) : FmtM × Bool) = (swapF (ok st), false) from rfl,
    foldl_swap_docStep]

/-- The success/error shape of a `beautify` result, forgetting the returned
buffer contents. -/
def resShape : Except RErr String → Except RErr Unit
  | .ok _ => .ok ()
  | .error e => .error e

/-- C5.  Mode equivalence: for every tree and error flag, the bytes
accumulated in the buffer by an in-place run equal the bytes written to the
stream by a direct run, and both runs succeed or fail with the same error.
The emitted text is independent of the `inplace` flag. -/
theorem c5_inplace_direct_equiv (root : Node) (hasErr : Bool) :
    (beautify true root hasErr).1.formatted =
      (beautify false root hasErr).1.stdoutBuf ∧
    resShape (beautify true root hasErr).2 =
      resShape (beautify false root hasErr).2 := by
  unfold beautify
  cases hasErr with
  | true => cases hfe : findFirstErrorNode root <;> simp [hfe, initState, resShape]
  | false =>
    simp only [Bool.false_eq_true, if_false]
    rw [show initState false = (initState true).swapSinks from rfl,
      swap_formatDocument]
    cases hfd : formatDocument (initState true) root with
    | mk st e =>
      cases e with
      | ok u =>
        dsimp only [swapF]
        constructor
        · show (st.println "").formatted = (st.swapSinks.println "").stdoutBuf
          rw [swap_println]
          rfl
        · rfl
      | error e => exact ⟨rfl, rfl⟩

/-- Byte length of a character list under UTF-8. -/
def utf8LenL (l : List Char) : Nat := (l.map Char.utf8Size).sum

/-- The characters written since the last line break. -/
def afterLastNl (l : List Char) : List Char :=
  (l.reverse.takeWhile (fun c => c != '\n')).reverse

/-- The invariant the alignment decisions rely on, as the code maintains it:
`col` equals the number of UTF-8 *bytes* in the active sink since the last
line break. -/
def colInv (st : State) : Prop :=
  st.col = utf8LenL (afterLastNl st.sink.data)

theorem takeWhile_append_of_all {α : Type} (p : α → Bool) (l1 l2 : List α)
    (h : ∀ a ∈ l1, p a = true) :
    (l1 ++ l2).takeWhile p = l1 ++ l2.takeWhile p := by
  induction l1 with
  | nil => rfl
  | cons x xs ih =>
    have hx := h x (List.mem_cons_self x xs)
    have ih2 := ih fun a ha => h a (List.mem_cons_of_mem x ha)
    simp [List.takeWhile_cons, hx, ih2]

theorem afterLastNl_append_noNl (a s : List Char) (h : ∀ c ∈ s, c ≠ '\n') :
    afterLastNl (a ++ s) = afterLastNl a ++ s := by
  unfold afterLastNl
  rw [List.reverse_append,
    takeWhile_append_of_all _ s.reverse a.reverse
      (by intro c hc; simpa using h c (List.mem_reverse.mp hc)),
    List.reverse_append, List.reverse_reverse]

theorem afterLastNl_append_nl (a : List Char) :
    afterLastNl (a ++ ['\n']) = [] := by
  unfold afterLastNl
  rw [List.reverse_append]
  rfl

theorem utf8LenL_append (a b : List Char) :
    utf8LenL (a ++ b) = utf8LenL a + utf8LenL b := by
  simp [utf8LenL]

/-- C3 counterexample.  `State::print` advances `col` by `string.len()`,
which in Rust is the UTF-8 *byte* length: after printing the two-byte
character `é`, `col` is `2` while only one character has been written since
the last line break — the claim's character-count reading of `col` fails on
multi-byte UTF-8 content. -/
theorem c3_col_counts_bytes_counterexample :
    ((initState true).print "é").col = 2 ∧
    (afterLastNl (((initState true).print "é").sink).data).length = 1 ∧
    ((initState true).print "é").col ≠
      (afterLastNl (((initState true).print "é").sink).data).length := by
  refine ⟨by rfl, by rfl, by decide⟩

/-- C3 amended.  The invariant the code actually maintains at the points the
alignment decisions read `col`: `col` equals the number of UTF-8 *bytes*
written to the active sink since the last line break.  `print` preserves it
for strings without an embedded line break (every string printed on a
posting line), and `println` re-establishes it unconditionally. -/
theorem c3_col_byte_invariant :
    (∀ (st : State) (s : String), colInv st → (∀ c ∈ s.data, c ≠ '\n') →
      colInv (st.print s)) ∧
    (∀ (st : State) (s : String), colInv (st.println s) ∧ (st.println s).col = 0) := by
  constructor
  · intro st s hinv hs
    unfold colInv at hinv ⊢
    have hsink : (st.print s).sink = st.sink ++ s := sink_print st s
    have hcol : (st.print s).col = st.col + utf8Len s := by
      by_cases h : st.inplace <;> simp [State.print, h]
    rw [hcol, hsink, String.data_append, afterLastNl_append_noNl _ _ hs,
      utf8LenL_append, hinv]
    rfl
  · intro st s
    have hsink : (st.println s).sink = st.sink ++ s ++ "\n" := sink_println st s
    have hcol : (st.println s).col = 0 := by
      by_cases h : st.inplace <;> simp [State.println, h]
    constructor
    · unfold colInv
      rw [hcol, hsink, String.data_append,
        show ("\n" : String).data = ['\n'] from rfl, afterLastNl_append_nl]
      rfl
    · exact hcol

theorem c3_col_byte_invariant_witness :
    colInv ((initState true).print "ab") ∧
    colInv ((initState false).println "x") :=
  ⟨c3_col_byte_invariant.1 (initState true) "ab" (by unfold colInv; rfl) (by decide),
   (c3_col_byte_invariant.2 (initState false) "x").1⟩

/-- Split a character list into lines at each line break; the residue after
the last break (empty for break-terminated text) is the final entry. -/
def linesAux : List Char → List Char → List (List Char)
  | [], cur => [cur.reverse]
  | c :: rest, cur =>
    if c = '\n' then cur.reverse :: linesAux rest [] else linesAux rest (c :: cur)

def linesOf (l : List Char) : List (List Char) := linesAux l []

/-- Render a list of complete lines: each line followed by a line break. -/
def joinLinesL (ls : List (List Char)) : List Char :=
  (ls.map (fun x => x ++ ['\n'])).flatten

theorem linesAux_noNl (b : List Char) (h : '\n' ∉ b) :
    ∀ (l cur : List Char), linesAux (b ++ l) cur = linesAux l (b.reverse ++ cur) := by
  induction b with
  | nil => intro l cur; rfl
  | cons c cs ih =>
    intro l cur
    have hc : ¬(c = '\n') := fun hc => h (hc ▸ List.mem_cons_self c cs)
    have hcs : '\n' ∉ cs := fun hm => h (List.mem_cons_of_mem c hm)
    show linesAux (c :: (cs ++ l)) cur = linesAux l ((c :: cs).reverse ++ cur)
    rw [show linesAux (c :: (cs ++ l)) cur
          = if c = '\n' then cur.reverse :: linesAux (cs ++ l) []
            else linesAux (cs ++ l) (c :: cur) from rfl,
      if_neg hc, ih hcs l (c :: cur)]
    simp [List.append_assoc]

theorem linesAux_line (b : List Char) (h : '\n' ∉ b) (l : List Char) :
    linesAux (b ++ '\n' :: l) [] = b :: linesAux l [] := by
  rw [linesAux_noNl b h ('\n' :: l) []]
  simp [linesAux]

theorem joinLinesL_cons (x : List Char) (ls : List (List Char)) :
    joinLinesL (x :: ls) = (x ++ ['\n']) ++ joinLinesL ls := rfl

theorem joinLinesL_append (a b : List (List Char)) :
    joinLinesL (a ++ b) = joinLinesL a ++ joinLinesL b := by
  simp [joinLinesL]

theorem linesOf_joinLinesL (ls : List (List Char)) (h : ∀ x ∈ ls, '\n' ∉ x) :
    linesOf (joinLinesL ls) = ls ++ [[]] := by
  induction ls with
  | nil => rfl
  | cons x xs ih =>
    have hx : '\n' ∉ x := h x (List.mem_cons_self x xs)
    unfold linesOf
    rw [joinLinesL_cons, List.append_assoc, List.singleton_append,
      linesAux_line x hx]
    rw [show linesAux (joinLinesL xs) [] = linesOf (joinLinesL xs) from rfl,
      ih fun y hy => h y (List.mem_cons_of_mem x hy)]
    rfl

/-- The line sequence `format_document` emits: a run-opening blank marker
contributes one blank line, later markers of the same run contribute
nothing, items contribute their own lines. -/
def docLines (f : Node → List (List Char)) : List Node → Bool → List (List Char)
  | [], _ => []
  | c :: cs, added =>
    if c.kind == "\n" then
      (if added then [] else [[]]) ++ docLines f cs true
    else f c ++ docLines f cs false

/-- The number of maximal runs of consecutive blank-line markers among the
document children (with the flag saying whether a run is already open). -/
def countRuns : List Node → Bool → Nat
  | [], _ => 0
  | c :: cs, added =>
    if c.kind == "\n" then (if added then 0 else 1) + countRuns cs true
    else countRuns cs false

/-- No two adjacent entries are both blank. -/
def noTwoBlank : List (List Char) → Bool
  | [] => true
  | [_] => true
  | a :: b :: rest => !(a.isEmpty && b.isEmpty) && noTwoBlank (b :: rest)

theorem isEmpty_false_of_ne {l : List Char} (h : l ≠ []) : l.isEmpty = false := by
  cases l with
  | nil => exact absurd rfl h
  | cons c cs => rfl

theorem noTwoBlank_cons_blank (rest : List (List Char))
    (h1 : noTwoBlank rest = true) (h2 : rest.head? ≠ some []) :
    noTwoBlank ([] :: rest) = true := by
  cases rest with
  | nil => rfl
  | cons y ys =>
    have hy : y ≠ [] := fun he => h2 (by rw [he]; rfl)
    simp [noTwoBlank, isEmpty_false_of_ne hy, h1]

theorem noTwoBlank_append (xs ys : List (List Char))
    (hx : ∀ x ∈ xs, x ≠ []) (hy : noTwoBlank ys = true) :
    noTwoBlank (xs ++ ys) = true := by
  induction xs with
  | nil => simpa
  | cons a as ih =>
    have ha := isEmpty_false_of_ne (hx a (List.mem_cons_self a as))
    have ih2 := ih fun x hxm => hx x (List.mem_cons_of_mem a hxm)
    cases as with
    | nil =>
      cases ys with
      | nil => rfl
      | cons y ys2 =>
        simpa [noTwoBlank, ha] using hy
    | cons b bs =>
      have hb := isEmpty_false_of_ne (hx b (List.mem_cons_of_mem a
        (List.mem_cons_self b bs)))
      simpa [noTwoBlank, ha] using ih2

theorem countP_isEmpty_zero (xs : List (List Char)) (hx : ∀ x ∈ xs, x ≠ []) :
    xs.countP (·.isEmpty) = 0 := by
  rw [List.countP_eq_zero]
  intro x hxm
  simp [isEmpty_false_of_ne (hx x hxm)]

/-- The three facts the amended blank-line claim needs about the emitted
line sequence, proved together by one induction over the children. -/
theorem docLines_props (f : Node → List (List Char)) :
    ∀ (l : List Node) (added : Bool),
      (∀ c ∈ l, c.kind ≠ "\n" →
        f c ≠ [] ∧ ∀ x ∈ f c, x ≠ [] ∧ '\n' ∉ x) →
      noTwoBlank (docLines f l added) = true ∧
      (added = true → (docLines f l added).head? ≠ some []) ∧
      (docLines f l added).countP (·.isEmpty) = countRuns l added := by
  intro l
  induction l with
  | nil =>
    intro added h
    exact ⟨rfl, fun _ => by simp [docLines], rfl⟩
  | cons c cs ih =>
    intro added h
    by_cases hk : c.kind == "\n"
    · have ih2 := ih true fun x hx => h x (List.mem_cons_of_mem c hx)
      cases added with
      | true =>
        rw [show docLines f (c :: cs) true = docLines f cs true from by
              simp [docLines, hk],
            show countRuns (c :: cs) true = countRuns cs true from by
              simp [countRuns, hk]]
        exact ⟨ih2.1, fun _ => ih2.2.1 rfl, ih2.2.2⟩
      | false =>
        rw [show docLines f (c :: cs) false = [] :: docLines f cs true from by
              simp [docLines, hk],
            show countRuns (c :: cs) false = 1 + countRuns cs true from by
              simp [countRuns, hk]]
        refine ⟨noTwoBlank_cons_blank _ ih2.1 (ih2.2.1 rfl),
          fun hctr => absurd hctr (by decide), ?_⟩
        rw [List.countP_cons]
        simp [ih2.2.2, Nat.add_comm]
    · have hk2 : c.kind ≠ "\n" := by simpa using hk
      have hwf := h c (List.mem_cons_self c cs) hk2
      have ih2 := ih false fun x hx => h x (List.mem_cons_of_mem c hx)
      rw [show docLines f (c :: cs) added = f c ++ docLines f cs false from by
            simp [docLines, hk],
          show countRuns (c :: cs) added = countRuns cs false from by
            simp [countRuns, hk]]
      refine ⟨noTwoBlank_append _ _ (fun x hx => (hwf.2 x hx).1) ih2.1, ?_, ?_⟩
      · intro _
        cases hfc : f c with
        | nil => exact absurd hfc hwf.1
        | cons y ys =>
          have hy : y ≠ [] := (hwf.2 y (hfc ▸ List.mem_cons_self y ys)).1
          simp only [List.cons_append, List.head?_cons]
          intro hcontra
          exact hy (Option.some.injEq _ _ ▸ hcontra)
      · rw [List.countP_append, countP_isEmpty_zero _ (fun x hx => (hwf.2 x hx).1),
          ih2.2.2]
        simp

/-- Append text to the active sink only (the common effect of the print
primitives, with the cursor bookkeeping factored out). -/
def appendOut (st : State) (w : String) : State :=
  if st.inplace then { st with formatted := st.formatted ++ w }
  else { st with stdoutBuf := st.stdoutBuf ++ w }

theorem sink_appendOut (st : State) (w : String) :
    (appendOut st w).sink = st.sink ++ w := by
  by_cases h : st.inplace <;> simp [appendOut, State.sink, h]

theorem appendOut_empty (st : State) : appendOut st "" = st := by
  cases st with
  | mk f s i c r l e nsp => by_cases h : i <;> simp [appendOut, h]

theorem appendOut_appendOut (st : State) (a b : String) :
    appendOut (appendOut st a) b = appendOut st (a ++ b) := by
  by_cases h : st.inplace <;> simp [appendOut, h, String.append_assoc]

theorem appendOut_setColRow (st : State) (w : String) (c r : Nat) :
    appendOut { st with col := c, row := r } w =
      { appendOut st w with col := c, row := r } := by
  by_cases h : st.inplace <;> simp [appendOut, h]

theorem println_empty_eq (st : State) :
    st.println "" = { appendOut st ⟨['\n']⟩ with col := 0, row := st.row + 1 } := by
  by_cases h : st.inplace <;> simp [State.println, appendOut, h]

/-- What the amended blank-line claim assumes of one document item: from
any column-0 state the item step succeeds and appends exactly the rendering
of a fixed non-empty list of complete, non-blank lines, returning to column
0.  All directive and transaction items behave this way; comments and
`option` lines do not (they are emitted without their own line break). -/
def ItemOk (n child : Node) (ls : List (List Char)) : Prop :=
  ls ≠ [] ∧ (∀ x ∈ ls, x ≠ [] ∧ '\n' ∉ x) ∧
  ∀ st : State, st.col = 0 → ∃ r2,
    docItemStep n st child =
      ok { appendOut st ⟨joinLinesL ls⟩ with col := 0, row := r2 }

/-- The characterization of the `format_document` fold: under the item
hypotheses its output is exactly the rendering of `docLines`. -/
theorem docFold_out (f : Node → List (List Char)) (n : Node) :
    ∀ (l : List Node) (st : State) (added : Bool),
      (∀ c ∈ l, c.kind ≠ "\n" → ItemOk n c (f c)) → st.col = 0 →
      ∃ r2 b2, l.foldl (docStep n) (ok st, added) =
        (ok { appendOut st ⟨joinLinesL (docLines f l added)⟩ with col := 0, row := r2 },
          b2) := by
  intro l
  induction l with
  | nil =>
    intro st added h h0
    refine ⟨st.row, added, ?_⟩
    show (ok st, added) = _
    rw [show docLines f ([] : List Node) added = [] from rfl,
      show (⟨joinLinesL []⟩ : String) = "" from rfl, appendOut_empty, ← h0]
  | cons c cs ih =>
    intro st added h h0
    by_cases hk : c.kind == "\n"
    · cases added with
      | true =>
        rw [List.foldl_cons,
          show docStep n (ok st, true) c = (ok st, true) from by
            simp [docStep, ok, hk]]
        obtain ⟨r2, b2, hrec⟩ :=
          ih st true (fun x hx => h x (List.mem_cons_of_mem c hx)) h0
        refine ⟨r2, b2, ?_⟩
        rw [hrec, show docLines f (c :: cs) true = docLines f cs true from by
          simp [docLines, hk]]
      | false =>
        rw [List.foldl_cons,
          show docStep n (ok st, false) c = (ok (st.println ""), true) from by
            simp [docStep, ok, hk]]
        obtain ⟨r2, b2, hrec⟩ :=
          ih (st.println "") true (fun x hx => h x (List.mem_cons_of_mem c hx))
            (by by_cases hip : st.inplace <;> simp [State.println, hip])
        refine ⟨r2, b2, ?_⟩
        rw [hrec, println_empty_eq, appendOut_setColRow, appendOut_appendOut,
          show docLines f (c :: cs) false = [] :: docLines f cs true from by
            simp [docLines, hk],
          joinLinesL_cons]
        rfl
    · have hk2 : c.kind ≠ "\n" := by simpa using hk
      obtain ⟨hne, hwf, hrun⟩ := h c (List.mem_cons_self c cs) hk2
      obtain ⟨r1, hit⟩ := hrun st h0
      rw [List.foldl_cons,
        show docStep n (ok st, added) c = (docItemStep n st c, false) from by
          simp [docStep, ok, hk],
        hit]
      obtain ⟨r2, b2, hrec⟩ :=
        ih { appendOut st ⟨joinLinesL (f c)⟩ with col := 0, row := r1 } false
          (fun x hx => h x (List.mem_cons_of_mem c hx)) rfl
      refine ⟨r2, b2, ?_⟩
      rw [hrec, appendOut_setColRow, appendOut_appendOut,
        show docLines f (c :: cs) added = f c ++ docLines f cs false from by
          simp [docLines, hk],
        joinLinesL_append]
      rfl

theorem docLines_mem_noNl (f : Node → List (List Char)) :
    ∀ (l : List Node) (added : Bool),
      (∀ c ∈ l, c.kind ≠ "\n" → ∀ x ∈ f c, '\n' ∉ x) →
      ∀ x ∈ docLines f l added, '\n' ∉ x := by
  intro l
  induction l with
  | nil => intro added h x hx; simp [docLines] at hx
  | cons c cs ih =>
    intro added h x hx
    by_cases hk : c.kind == "\n"
    · rw [show docLines f (c :: cs) added =
          (if added then [] else [[]]) ++ docLines f cs true from by
            simp [docLines, hk]] at hx
      rcases List.mem_append.mp hx with h1 | h2
      · cases added with
        | true => simp at h1
        | false =>
          simp at h1
          simp [h1]
      · exact ih true (fun a ha hk2 => h a (List.mem_cons_of_mem c ha) hk2) x h2
    · have hk2 : c.kind ≠ "\n" := by simpa using hk
      rw [show docLines f (c :: cs) added = f c ++ docLines f cs false from by
        simp [docLines, hk]] at hx
      rcases List.mem_append.mp hx with h1 | h2
      · exact h c (List.mem_cons_self c cs) hk2 x h1
      · exact ih false (fun a ha hk3 => h a (List.mem_cons_of_mem c ha) hk3) x h2

/-- A document starting with a blank-line marker, followed by one account
directive. -/
def c2Nl : Node := .mk "\n" false false 0 0 "\n" []

def c2AcctName : Node := .mk "account" true false 1 8 "Assets" []

def c2AcctDir : Node := .mk "account_directive" true false 1 0 "" [c2AcctName]

def c2Dir : Node := .mk "directive" true false 1 0 "" [c2AcctDir]

def c2Item : Node := .mk "journal_item" true false 1 0 "" [c2Dir]

def c2Doc : Node := .mk "source_file" true false 0 0 "" [c2Nl, c2Item]

/-- C2 counterexample.  A document whose children start with a blank-line
marker emits a blank line as the very first line of output (the collapsing
flag starts out false), even though a non-blank item follows: the claim's
"no blank line is emitted before the first non-blank item" fails. -/
theorem c2_leading_blank_counterexample :
    (formatDocument (initState true) c2Doc).1.sink = "\naccount Assets\n" ∧
    (linesOf ("\naccount Assets\n").data).head? = some [] ∧
    "account Assets".data ∈ linesOf ("\naccount Assets\n").data ∧
    "account Assets".data ≠ [] := by
  refine ⟨by rfl, by rfl, by decide, by decide⟩

/-- C2 amended.  For items that emit complete non-blank lines from column 0
(all directives and transactions — comments and `option` lines are copied
without their own terminating break and are excluded), `format_document`
appends exactly the rendering of `docLines`: the emitted text decomposes
into exactly those lines, no two consecutive emitted lines are blank, and
every maximal run of K≥1 blank-line markers contributes exactly one blank
line (the count of blank lines equals the count of runs).  A blank line
*can* stand at the very head of the output when the document begins with
markers, which is the part of the original claim the counterexample
removes. -/
theorem c2_blank_collapsing_amended (n : Node) (f : Node → List (List Char))
    (H : ∀ c ∈ n.children, c.kind ≠ "\n" → ItemOk n c (f c))
    (st : State) (h0 : st.col = 0) :
    (∃ r2, formatDocument st n =
      ok { appendOut st ⟨joinLinesL (docLines f n.children false)⟩ with
        col := 0, row := r2 }) ∧
    linesOf (joinLinesL (docLines f n.children false)) =
      docLines f n.children false ++ [[]] ∧
    noTwoBlank (docLines f n.children false) = true ∧
    (docLines f n.children false).countP (·.isEmpty) =
      countRuns n.children false := by
  have hprops := docLines_props f n.children false
    (fun c hc hk => ⟨(H c hc hk).1, (H c hc hk).2.1⟩)
  refine ⟨?_, ?_, hprops.1, hprops.2.2⟩
  · obtain ⟨r2, b2, hfold⟩ := docFold_out f n n.children st false H h0
    exact ⟨r2, by simp only [formatDocument, hfold]⟩
  · exact linesOf_joinLinesL _ (docLines_mem_noNl f n.children false
      (fun c hc hk x hx => ((H c hc hk).2.1 x hx).2))

/-- The line list of the single item of the witness document. -/
def c2ItemLines : Node → List (List Char) := fun _ => ["account Assets".data]

theorem c2_blank_collapsing_witness :
    (∃ r2, formatDocument (initState true) c2Doc =
      ok { appendOut (initState true)
            ⟨joinLinesL (docLines c2ItemLines c2Doc.children false)⟩ with
        col := 0, row := r2 }) ∧
    linesOf (joinLinesL (docLines c2ItemLines c2Doc.children false)) =
      docLines c2ItemLines c2Doc.children false ++ [[]] ∧
    noTwoBlank (docLines c2ItemLines c2Doc.children false) = true ∧
    (docLines c2ItemLines c2Doc.children false).countP (·.isEmpty) =
      countRuns c2Doc.children false := by
  refine c2_blank_collapsing_amended c2Doc c2ItemLines ?_ (initState true) rfl
  intro c hc hk
  rw [show c2Doc.children = [c2Nl, c2Item] from rfl] at hc
  rcases List.mem_cons.mp hc with rfl | hc2
  · exact absurd rfl hk
  rcases List.mem_cons.mp hc2 with rfl | hc3
  · refine ⟨by decide, by decide, ?_⟩
    intro st h0
    refine ⟨st.row + 1, ?_⟩
    show formatJournalItem st c2Dir = _
    have hstr : ("account " ++ ("Assets" ++ "\n") : String) =
      ⟨joinLinesL (c2ItemLines c2Item)⟩ := rfl
    by_cases hip : st.inplace <;>
      (simp [formatJournalItem, c2Dir, c2Item, c2ItemLines, c2AcctDir,
        formatDirective, formatAccountDirective, Node.kind, Node.children,
        Node.namedChildren, Node.named, Node.text, c2AcctName, State.print,
        State.println, appendOut, ok, andThen, hip, String.append_assoc, hstr];
       rfl)
  · cases hc3

end Ledger
